import Mathlib

/-!
Verification of the internal key-encoding and ordering layer of
SMVLevelDB (`db/dbformat.h`).  Byte strings are modelled as lists of
bytes (`Fin 256`); the fixed 8-byte integer codec is little-endian, as
pinned by the concrete examples of the design document.  Functions whose
bodies appear in `db/dbformat.h` are translated directly; functions that
the header only declares (their bodies live in `db/dbformat.cc` and
`util/coding.h`, which are not part of the available sources) are
modelled from the design document and are marked as such in their doc
comments.
-/

/-- A byte value in `[0, 255]`. -/
abbrev Byte := Fin 256

/-- A byte string (contents of a C++ `Slice` / `std::string`). -/
abbrev Slice := List Byte

/-- Little-endian value of a byte string: the head is the least
significant byte. -/
def decodeLE (bs : Slice) : Nat :=
  bs.foldr (fun b acc => b.val + 256 * acc) 0

/-- Modelled from the spec: `DecodeFixed64` (from `util/coding.h`, which
is not among the available sources) reads a fixed 8-byte little-endian
unsigned integer starting at the given position; the design document
fixes the 8-byte tag as a fixed-width integer and its concrete examples
pin the little-endian byte order. -/
def DecodeFixed64 (bs : Slice) : Nat :=
  decodeLE (bs.take 8)

/-- Little-endian bytes of a value, `n` bytes wide (truncating to `n`
bytes). -/
def fixedBytesLE : Nat → Nat → Slice
  | 0, _ => []
  | n + 1, v => ⟨v % 256, Nat.mod_lt _ (by omega)⟩ :: fixedBytesLE n (v / 256)

/-- Modelled from the spec: `PutFixed64`/`EncodeFixed64` (from
`util/coding.h`, not among the available sources) appends the 8-byte
little-endian encoding of a 64-bit value. -/
def EncodeFixed64 (v : Nat) : Slice :=
  fixedBytesLE 8 v

/-- `kTypeDeletion = 0x0` (from `dbformat.h`). -/
def kTypeDeletion : Nat := 0x0

/-- `kTypeValue = 0x1` (from `dbformat.h`). -/
def kTypeValue : Nat := 0x1

/-- `kValueTypeForSeek = kTypeValue` (from `dbformat.h`). -/
def kValueTypeForSeek : Nat := kTypeValue

/-- `kMaxSequenceNumber = (1 << 56) - 1` (from `dbformat.h`). -/
def kMaxSequenceNumber : Nat := (0x1 <<< 56) - 1

/-- `kMaxValidTime = UINT64_MAX` (from `dbformat.h`). -/
def kMaxValidTime : Nat := 2 ^ 64 - 1

/-- `kMinValidTime = 0x0` (from `dbformat.h`). -/
def kMinValidTime : Nat := 0x0

/-- `ParsedInternalKey` (from `dbformat.h`): user key, sequence and type.
The type field holds the raw byte value, mirroring the unchecked
`static_cast<ValueType>` performed by the decoder. -/
structure ParsedInternalKey where
  user_key : Slice
  sequence : Nat
  type : Nat
deriving DecidableEq, Repr

/-- `ParsedMVInternalKey` (from `dbformat.h`): user key, sequence, type
and start valid time. -/
structure ParsedMVInternalKey where
  user_key : Slice
  sequence : Nat
  type : Nat
  valid_time : Nat
deriving DecidableEq, Repr

/-- Modelled from the spec: `PackSequenceAndType` (from `dbformat.cc`,
not among the available sources) packs the tag as
`(sequence << 8) | type`. -/
def PackSequenceAndType (seq t : Nat) : Nat :=
  (seq <<< 8) ||| t

/-- Modelled from the spec: `AppendInternalKey` (declared in
`dbformat.h`, body in `dbformat.cc` which is not among the available
sources) appends the user key followed by the fixed 8-byte tag
`(sequence << 8) | type` to `result`. -/
def AppendInternalKey (result : Slice) (key : ParsedInternalKey) : Slice :=
  result ++ key.user_key ++ EncodeFixed64 (PackSequenceAndType key.sequence key.type)

/-- Modelled from the spec: `AppendMVInternalKey` (declared in
`dbformat.h`, body not among the available sources) appends the user
key, then the fixed 8-byte tag, then the fixed 8-byte valid time. -/
def AppendMVInternalKey (result : Slice) (key : ParsedMVInternalKey) : Slice :=
  result ++ key.user_key ++ EncodeFixed64 (PackSequenceAndType key.sequence key.type)
    ++ EncodeFixed64 key.valid_time

/-- `ParseInternalKey` (from `dbformat.h`).  Returns the success flag
together with the contents of `*result` after the call; the caller
passes in the previous contents of `*result`, which are returned
untouched on the short-input path. -/
def ParseInternalKey (internal_key : Slice) (result : ParsedInternalKey) :
    Bool × ParsedInternalKey :=
  let n := internal_key.length
  if n < 8 then (false, result)
  else
    let num := DecodeFixed64 (internal_key.drop (n - 8))
    let c := num &&& 0xff
    (decide (c ≤ kTypeValue),
      { sequence := num >>> 8, type := c, user_key := internal_key.take (n - 8) })

/-- `ParseMVInternalKey` (from `dbformat.h`). -/
def ParseMVInternalKey (mv_internal_key : Slice) (result : ParsedMVInternalKey) :
    Bool × ParsedMVInternalKey :=
  let n := mv_internal_key.length
  if n < 16 then (false, result)
  else
    let num := DecodeFixed64 (mv_internal_key.drop (n - 16))
    let c := num &&& 0xff
    (decide (c ≤ kTypeValue),
      { sequence := num >>> 8, type := c,
        user_key := mv_internal_key.take (n - 16),
        valid_time := DecodeFixed64 (mv_internal_key.drop (n - 8)) })

/-- `ExtractUserKey` (from `dbformat.h`): the internal key minus its
trailing 8 bytes. -/
def ExtractUserKey (internal_key : Slice) : Slice :=
  internal_key.take (internal_key.length - 8)

/-- `MVExtractUserKey` (from `dbformat.h`): the multi-version internal
key minus its trailing 16 bytes. -/
def MVExtractUserKey (mv_internal_key : Slice) : Slice :=
  mv_internal_key.take (mv_internal_key.length - 16)

/-- Modelled from the spec: `InternalKeyComparator::Compare` (declared in
`dbformat.h`, body in `dbformat.cc` which is not among the available
sources).  It compares the user-key portions with the injected user
comparator `U` (ascending) and, on equal user keys, compares the
trailing 8-byte tags numerically descending. -/
def InternalKeyComparator.Compare (U : Slice → Slice → Int) (akey bkey : Slice) : Int :=
  let r := U (ExtractUserKey akey) (ExtractUserKey bkey)
  if r = 0 then
    let anum := DecodeFixed64 (akey.drop (akey.length - 8))
    let bnum := DecodeFixed64 (bkey.drop (bkey.length - 8))
    if bnum < anum then -1
    else if anum < bnum then 1
    else 0
  else r

/- Basic facts about the fixed 8-byte codec. -/

theorem fixedBytesLE_length (n v : Nat) : (fixedBytesLE n v).length = n := by
  induction n generalizing v with
  | zero => rfl
  | succ n ih => simp [fixedBytesLE, ih]

theorem EncodeFixed64_length (v : Nat) : (EncodeFixed64 v).length = 8 :=
  fixedBytesLE_length 8 v

theorem decodeLE_fixedBytesLE (n v : Nat) :
    decodeLE (fixedBytesLE n v) = v % 256 ^ n := by
  induction n generalizing v with
  | zero => simp [fixedBytesLE, decodeLE, Nat.mod_one]
  | succ n ih =>
    simp only [fixedBytesLE, decodeLE, List.foldr_cons]
    have hrec : decodeLE (fixedBytesLE n (v / 256)) = v / 256 % 256 ^ n := ih (v / 256)
    simp only [decodeLE] at hrec
    rw [hrec]
    rw [show (256 : Nat) ^ (n + 1) = 256 * 256 ^ n by ring, Nat.mod_mul]

theorem decodeLE_lt (l : Slice) : decodeLE l < 256 ^ l.length := by
  induction l with
  | nil => simp [decodeLE]
  | cons b l ih =>
    simp only [decodeLE, List.foldr_cons, List.length_cons]
    have hb := b.isLt
    have : (256 : Nat) ^ (l.length + 1) = 256 * 256 ^ l.length := by ring
    rw [this]
    simp only [decodeLE] at ih
    omega

theorem DecodeFixed64_EncodeFixed64 (v : Nat) (h : v < 2 ^ 64) :
    DecodeFixed64 (EncodeFixed64 v) = v := by
  have hl : (EncodeFixed64 v).length = 8 := EncodeFixed64_length v
  have ht : (EncodeFixed64 v).take 8 = EncodeFixed64 v := by
    rw [List.take_of_length_le (by omega)]
  rw [DecodeFixed64, ht, EncodeFixed64, decodeLE_fixedBytesLE]
  have : (256 : Nat) ^ 8 = 2 ^ 64 := by norm_num
  rw [this]
  exact Nat.mod_eq_of_lt h

theorem DecodeFixed64_lt (bs : Slice) : DecodeFixed64 bs < 2 ^ 64 := by
  have h := decodeLE_lt (bs.take 8)
  have hlen : (bs.take 8).length ≤ 8 := by
    simp [List.length_take]
  calc DecodeFixed64 bs < 256 ^ (bs.take 8).length := h
    _ ≤ 256 ^ 8 := Nat.pow_le_pow_right (by omega) hlen
    _ = 2 ^ 64 := by norm_num

theorem PackSequenceAndType_eq (seq t : Nat) (ht : t < 256) :
    PackSequenceAndType seq t = 256 * seq + t := by
  rw [PackSequenceAndType, Nat.shiftLeft_eq, Nat.mul_comm seq (2 ^ 8)]
  rw [show (256 : Nat) * seq = 2 ^ 8 * seq by norm_num]
  exact (Nat.mul_add_lt_is_or (by omega) seq).symm

theorem kMaxSequenceNumber_eq : kMaxSequenceNumber = 2 ^ 56 - 1 := by
  rw [kMaxSequenceNumber, Nat.shiftLeft_eq]
  norm_num

theorem PackSequenceAndType_lt (seq t : Nat) (hs : seq ≤ kMaxSequenceNumber)
    (ht : t ≤ 1) : PackSequenceAndType seq t < 2 ^ 64 := by
  rw [PackSequenceAndType_eq seq t (by omega)]
  rw [kMaxSequenceNumber_eq] at hs
  have : (2 : Nat) ^ 56 ≤ 2 ^ 64 := Nat.pow_le_pow_right (by omega) (by omega)
  have h56 : (2 : Nat) ^ 56 * 256 = 2 ^ 64 := by norm_num
  omega

/- Facts about appending and slicing encoded keys. -/

theorem take_append_length (u v : Slice) :
    (u ++ v).take ((u ++ v).length - v.length) = u := by
  have : (u ++ v).length - v.length = u.length := by
    simp [List.length_append]
  rw [this, List.take_left]

theorem drop_append_length (u v : Slice) :
    (u ++ v).drop ((u ++ v).length - v.length) = v := by
  have : (u ++ v).length - v.length = u.length := by
    simp [List.length_append]
  rw [this, List.drop_left]

theorem ExtractUserKey_append (u v : Slice) (h : v.length = 8) :
    ExtractUserKey (u ++ v) = u := by
  rw [ExtractUserKey, ← h, take_append_length]

theorem MVExtractUserKey_append (u v : Slice) (h : v.length = 16) :
    MVExtractUserKey (u ++ v) = u := by
  rw [MVExtractUserKey, ← h, take_append_length]

theorem drop_tag (u v : Slice) (h : v.length = 8) :
    (u ++ v).drop ((u ++ v).length - 8) = v := by
  rw [← h, drop_append_length]

/- Owning key value types.  `InternalKey` and `MVInternalKey` own one
encoded buffer `rep_`; each operation below is the new value of `rep_`
(paired with the returned success flag where the C++ method returns
`bool`).  All mutations are whole-buffer replacements, so the previous
buffer is not an input of the model. -/

/-- `InternalKey()` (from `dbformat.h`): leaves `rep_` empty to indicate
the key is invalid/unset. -/
def InternalKey.mkEmpty : Slice := []

/-- `InternalKey(user_key, s, t)` (from `dbformat.h`): encodes the parsed
key into `rep_`. -/
def InternalKey.fromParsed (user_key : Slice) (s t : Nat) : Slice :=
  AppendInternalKey [] ⟨user_key, s, t⟩

/-- `InternalKey::DecodeFrom` (from `dbformat.h`): `rep_` becomes a copy
of all input bytes; returns `!rep_.empty()`. -/
def InternalKey.DecodeFrom (s : Slice) : Bool × Slice :=
  let rep := s
  (!rep.isEmpty, rep)

/-- `InternalKey::DecodeFromMV` (from `dbformat.h`): `rep_` becomes a
copy of the first `s.size() - 8` input bytes, dropping the trailing
8-byte valid time of a multi-version key; returns `!rep_.empty()`. -/
def InternalKey.DecodeFromMV (s : Slice) : Bool × Slice :=
  let rep := s.take (s.length - 8)
  (!rep.isEmpty, rep)

/-- `InternalKey::SetFrom` (from `dbformat.h`): clears `rep_` and
re-encodes the parsed key. -/
def InternalKey.SetFrom (p : ParsedInternalKey) : Slice :=
  AppendInternalKey [] p

/-- `InternalKey::Clear` (from `dbformat.h`). -/
def InternalKey.ClearRep : Slice := []

/-- `MVInternalKey()` (from `dbformat.h`): leaves `rep_` empty. -/
def MVInternalKey.mkEmpty : Slice := []

/-- `MVInternalKey(user_key, s, t, vt)` (from `dbformat.h`). -/
def MVInternalKey.fromParsed (user_key : Slice) (s t vt : Nat) : Slice :=
  AppendMVInternalKey [] ⟨user_key, s, t, vt⟩

/-- `MVInternalKey::DecodeFrom` (from `dbformat.h`): `rep_` becomes a
copy of all input bytes; returns `!rep_.empty()`. -/
def MVInternalKey.DecodeFrom (s : Slice) : Bool × Slice :=
  let rep := s
  (!rep.isEmpty, rep)

/-- `MVInternalKey::SetFrom` (from `dbformat.h`). -/
def MVInternalKey.SetFrom (p : ParsedMVInternalKey) : Slice :=
  AppendMVInternalKey [] p

/-- `MVInternalKey::Clear` (from `dbformat.h`). -/
def MVInternalKey.ClearRep : Slice := []

/-- A mutating operation on an `InternalKey`. -/
inductive IKOp where
  | decodeFrom (s : Slice)
  | decodeFromMV (s : Slice)
  | setFrom (p : ParsedInternalKey)
  | clear
deriving DecidableEq, Repr

/-- Effect of one `InternalKey` operation on the owned buffer. -/
def IKApply (_rep : Slice) : IKOp → Slice
  | .decodeFrom s => (InternalKey.DecodeFrom s).2
  | .decodeFromMV s => (InternalKey.DecodeFromMV s).2
  | .setFrom p => InternalKey.SetFrom p
  | .clear => InternalKey.ClearRep

/-- Buffer after a sequence of `InternalKey` operations. -/
def IKRun (rep : Slice) (ops : List IKOp) : Slice :=
  ops.foldl IKApply rep

/-- A mutating operation on an `MVInternalKey`. -/
inductive MVIKOp where
  | decodeFrom (s : Slice)
  | setFrom (p : ParsedMVInternalKey)
  | clear
deriving DecidableEq, Repr

/-- Effect of one `MVInternalKey` operation on the owned buffer. -/
def MVIKApply (_rep : Slice) : MVIKOp → Slice
  | .decodeFrom s => (MVInternalKey.DecodeFrom s).2
  | .setFrom p => MVInternalKey.SetFrom p
  | .clear => MVInternalKey.ClearRep

/-- Buffer after a sequence of `MVInternalKey` operations. -/
def MVIKRun (rep : Slice) (ops : List MVIKOp) : Slice :=
  ops.foldl MVIKApply rep

/-- The buffer invariant claimed for `InternalKey`: empty (unset
sentinel) or at least the 8-byte tag long. -/
def IKWellFormed (rep : Slice) : Prop :=
  rep = [] ∨ 8 ≤ rep.length

instance (rep : Slice) : Decidable (IKWellFormed rep) := by
  unfold IKWellFormed
  infer_instance

/-- The buffer invariant claimed for `MVInternalKey`: empty or at least
the 16-byte suffix long. -/
def MVIKWellFormed (rep : Slice) : Prop :=
  rep = [] ∨ 16 ≤ rep.length

instance (rep : Slice) : Decidable (MVIKWellFormed rep) := by
  unfold MVIKWellFormed
  infer_instance

/-- Length guard on an `InternalKey` operation input: `DecodeFrom` is fed
at least a whole 8-byte suffix, `DecodeFromMV` at least a whole 16-byte
multi-version suffix. -/
def IKOpOK : IKOp → Bool
  | .decodeFrom s => decide (8 ≤ s.length)
  | .decodeFromMV s => decide (16 ≤ s.length)
  | .setFrom _ => true
  | .clear => true

/-- Length guard on an `MVInternalKey` operation input. -/
def MVIKOpOK : MVIKOp → Bool
  | .decodeFrom s => decide (16 ≤ s.length)
  | .setFrom _ => true
  | .clear => true

/-- Modelled from the spec: `InternalFilterPolicy::KeyMayMatch` (declared
in `dbformat.h`, body in `dbformat.cc` which is not among the available
sources) queries the wrapped user policy with
`ExtractUserKey(internal_key)` and the given filter bitmap. -/
def InternalFilterPolicy.KeyMayMatch (user_policy : Slice → Slice → Bool)
    (key f : Slice) : Bool :=
  user_policy (ExtractUserKey key) f

/-- Modelled from the spec: `InternalFilterPolicy::CreateFilter`
(declared in `dbformat.h`, body not among the available sources) builds
the filter from `ExtractUserKey` of every key. -/
def InternalFilterPolicy.CreateFilter (user_policy : List Slice → Slice)
    (keys : List Slice) : Slice :=
  user_policy (keys.map ExtractUserKey)

/-- Varint32 byte production with explicit fuel (a 32-bit value needs at
most 5 bytes): emit 7 payload bits per byte, high bit set on every byte
but the last. -/
def varint32Aux : Nat → Nat → Slice
  | 0, _ => []
  | fuel + 1, v =>
    if h : v < 128 then [⟨v, by omega⟩]
    else ⟨v % 128 + 128, by omega⟩ :: varint32Aux fuel (v >>> 7)

/-- Modelled from the spec: `EncodeVarint32`/`PutVarint32` (from
`util/coding.h`, not among the available sources) appends the standard
base-128 varint encoding of a 32-bit value. -/
def EncodeVarint32 (v : Nat) : Slice :=
  varint32Aux 5 (v % 2 ^ 32)

/-- A `LookupKey` (from `dbformat.h`): one buffer
`varint32(klength) ‖ userkey ‖ tag` with `kstart_` marking the end of
the varint prefix.  The constructor body lives in `dbformat.cc`. -/
structure LookupKey where
  buf : Slice
  kstart : Nat
deriving DecidableEq, Repr

/-- Modelled from the spec: the `LookupKey` constructor (body in
`dbformat.cc`, not among the available sources) writes
`varint32(usize + 8)`, the user key, then the 8-byte tag packed from the
sequence number and `kValueTypeForSeek`. -/
def LookupKey.build (user_key : Slice) (sequence : Nat) : LookupKey :=
  let pfx := EncodeVarint32 (user_key.length + 8)
  let ik := user_key ++ EncodeFixed64 (PackSequenceAndType sequence kValueTypeForSeek)
  ⟨pfx ++ ik, pfx.length⟩

/-- `LookupKey::memtable_key` (from `dbformat.h`): the whole buffer. -/
def LookupKey.memtable_key (lk : LookupKey) : Slice :=
  lk.buf

/-- `LookupKey::internal_key` (from `dbformat.h`): the buffer from
`kstart_` to the end. -/
def LookupKey.internal_key (lk : LookupKey) : Slice :=
  lk.buf.drop lk.kstart

/-- `LookupKey::user_key` (from `dbformat.h`): the buffer from `kstart_`
to 8 bytes before the end. -/
def LookupKey.user_key (lk : LookupKey) : Slice :=
  (lk.buf.drop lk.kstart).take (lk.buf.length - lk.kstart - 8)

/-- An `MVLookupKey` (from `dbformat.h`): one buffer
`varint32(klength) ‖ userkey ‖ tag ‖ valid_time`. -/
structure MVLookupKey where
  buf : Slice
  kstart : Nat
deriving DecidableEq, Repr

/-- Modelled from the spec: the `MVLookupKey` constructor (body not among
the available sources) writes `varint32(usize + 16)`, the user key, the
8-byte tag, then the 8-byte valid time. -/
def MVLookupKey.build (user_key : Slice) (sequence vt : Nat) : MVLookupKey :=
  let pfx := EncodeVarint32 (user_key.length + 16)
  let ik := user_key ++ EncodeFixed64 (PackSequenceAndType sequence kValueTypeForSeek)
    ++ EncodeFixed64 vt
  ⟨pfx ++ ik, pfx.length⟩

/-- `MVLookupKey::memtable_key` (from `dbformat.h`). -/
def MVLookupKey.memtable_key (lk : MVLookupKey) : Slice :=
  lk.buf

/-- `MVLookupKey::internal_key` (from `dbformat.h`). -/
def MVLookupKey.internal_key (lk : MVLookupKey) : Slice :=
  lk.buf.drop lk.kstart

/-- `MVLookupKey::user_key` (from `dbformat.h`): the buffer from
`kstart_` to 16 bytes before the end. -/
def MVLookupKey.user_key (lk : MVLookupKey) : Slice :=
  (lk.buf.drop lk.kstart).take (lk.buf.length - lk.kstart - 16)

/-- `MVLookupKey::valid_time` (from `dbformat.h`): `DecodeFixed64` of the
final 8 bytes of the buffer. -/
def MVLookupKey.valid_time (lk : MVLookupKey) : Nat :=
  DecodeFixed64 (lk.buf.drop (lk.buf.length - 8))

/- Characterizations of the two parse functions. -/

theorem ParseInternalKey_short (b : Slice) (r : ParsedInternalKey)
    (h : b.length < 8) : ParseInternalKey b r = (false, r) := by
  simp only [ParseInternalKey]
  rw [if_pos h]

theorem ParseInternalKey_of_le (b : Slice) (r : ParsedInternalKey)
    (h : 8 ≤ b.length) :
    ParseInternalKey b r =
      (decide (DecodeFixed64 (b.drop (b.length - 8)) &&& 0xff ≤ kTypeValue),
       { sequence := DecodeFixed64 (b.drop (b.length - 8)) >>> 8,
         type := DecodeFixed64 (b.drop (b.length - 8)) &&& 0xff,
         user_key := b.take (b.length - 8) }) := by
  simp only [ParseInternalKey]
  rw [if_neg (by omega)]

theorem ParseMVInternalKey_short (b : Slice) (r : ParsedMVInternalKey)
    (h : b.length < 16) : ParseMVInternalKey b r = (false, r) := by
  simp only [ParseMVInternalKey]
  rw [if_pos h]

theorem ParseMVInternalKey_of_le (b : Slice) (r : ParsedMVInternalKey)
    (h : 16 ≤ b.length) :
    ParseMVInternalKey b r =
      (decide (DecodeFixed64 (b.drop (b.length - 16)) &&& 0xff ≤ kTypeValue),
       { sequence := DecodeFixed64 (b.drop (b.length - 16)) >>> 8,
         type := DecodeFixed64 (b.drop (b.length - 16)) &&& 0xff,
         user_key := b.take (b.length - 16),
         valid_time := DecodeFixed64 (b.drop (b.length - 8)) }) := by
  simp only [ParseMVInternalKey]
  rw [if_neg (by omega)]

theorem DecodeFixed64_append_left (a b : Slice) (h : a.length = 8) :
    DecodeFixed64 (a ++ b) = DecodeFixed64 a := by
  rw [DecodeFixed64, DecodeFixed64, ← h, List.take_left,
    List.take_of_length_le (by omega)]

/- Shape facts about the two encoders. -/

theorem AppendInternalKey_nil (u : Slice) (s t : Nat) :
    AppendInternalKey [] ⟨u, s, t⟩ =
      u ++ EncodeFixed64 (PackSequenceAndType s t) := by
  simp [AppendInternalKey]

theorem AppendMVInternalKey_nil (u : Slice) (s t vt : Nat) :
    AppendMVInternalKey [] ⟨u, s, t, vt⟩ =
      u ++ EncodeFixed64 (PackSequenceAndType s t) ++ EncodeFixed64 vt := by
  simp [AppendMVInternalKey]

theorem AppendInternalKey_nil_length (u : Slice) (s t : Nat) :
    (AppendInternalKey [] ⟨u, s, t⟩).length = u.length + 8 := by
  rw [AppendInternalKey_nil]
  simp [EncodeFixed64_length]

theorem AppendMVInternalKey_nil_length (u : Slice) (s t vt : Nat) :
    (AppendMVInternalKey [] ⟨u, s, t, vt⟩).length = u.length + 16 := by
  rw [AppendMVInternalKey_nil]
  simp [EncodeFixed64_length]

/-- The tag arithmetic recovered from a packed sequence/type pair. -/
theorem pack_arith (s t : Nat) (ht : t ≤ 1) :
    PackSequenceAndType s t &&& 0xff = t ∧
    PackSequenceAndType s t >>> 8 = s := by
  have hp : PackSequenceAndType s t = 256 * s + t :=
    PackSequenceAndType_eq s t (by omega)
  constructor
  · rw [Nat.and_pow_two_sub_one_eq_mod _ 8, hp]
    omega
  · rw [Nat.shiftRight_eq_div_pow, hp, show (2 : Nat) ^ 8 = 256 by norm_num]
    omega

/-- Claim C2: for every user key `u`, sequence `s ∈ [0, 2^56 - 1]`, type
`t ∈ {0, 1}` and 64-bit valid time `vt`, decoding the encoding of the
parsed key `{u, s, t}` succeeds and yields exactly `{u, s, t}`, and the
same round trip holds for the multi-version form `{u, s, t, vt}`
including recovery of the `valid_time` field. -/
theorem claim_C2_roundtrip (u : Slice) (s t vt : Nat)
    (r : ParsedInternalKey) (rm : ParsedMVInternalKey)
    (hs : s ≤ kMaxSequenceNumber) (ht : t ≤ 1) (hvt : vt < 2 ^ 64) :
    ParseInternalKey (AppendInternalKey [] ⟨u, s, t⟩) r = (true, ⟨u, s, t⟩) ∧
    ParseMVInternalKey (AppendMVInternalKey [] ⟨u, s, t, vt⟩) rm =
      (true, ⟨u, s, t, vt⟩) := by
  have hlt : PackSequenceAndType s t < 2 ^ 64 := PackSequenceAndType_lt s t hs ht
  have hE : (EncodeFixed64 (PackSequenceAndType s t)).length = 8 :=
    EncodeFixed64_length _
  have hEvt : (EncodeFixed64 vt).length = 8 := EncodeFixed64_length _
  have harith := pack_arith s t ht
  constructor
  · have hdrop : (u ++ EncodeFixed64 (PackSequenceAndType s t)).drop
        ((u ++ EncodeFixed64 (PackSequenceAndType s t)).length - 8)
        = EncodeFixed64 (PackSequenceAndType s t) := drop_tag _ _ hE
    have htake : (u ++ EncodeFixed64 (PackSequenceAndType s t)).take
        ((u ++ EncodeFixed64 (PackSequenceAndType s t)).length - 8) = u := by
      rw [← hE]
      exact take_append_length _ _
    rw [AppendInternalKey_nil, ParseInternalKey_of_le _ _ (by simp [hE]),
      hdrop, htake, DecodeFixed64_EncodeFixed64 _ hlt, harith.1, harith.2]
    simp [kTypeValue, ht]
  · rw [AppendMVInternalKey_nil]
    have hlen : (u ++ EncodeFixed64 (PackSequenceAndType s t) ++ EncodeFixed64 vt).length
        = u.length + 16 := by
      simp [hE, hEvt]
    rw [ParseMVInternalKey_of_le _ _ (by omega)]
    have h16 : (u ++ EncodeFixed64 (PackSequenceAndType s t) ++ EncodeFixed64 vt).length - 16
        = u.length := by omega
    have hassoc : u ++ EncodeFixed64 (PackSequenceAndType s t) ++ EncodeFixed64 vt
        = u ++ (EncodeFixed64 (PackSequenceAndType s t) ++ EncodeFixed64 vt) := by
      rw [List.append_assoc]
    have hdrop16 : (u ++ EncodeFixed64 (PackSequenceAndType s t) ++ EncodeFixed64 vt).drop
        ((u ++ EncodeFixed64 (PackSequenceAndType s t) ++ EncodeFixed64 vt).length - 16)
        = EncodeFixed64 (PackSequenceAndType s t) ++ EncodeFixed64 vt := by
      rw [h16, hassoc, List.drop_left]
    have htake16 : (u ++ EncodeFixed64 (PackSequenceAndType s t) ++ EncodeFixed64 vt).take
        ((u ++ EncodeFixed64 (PackSequenceAndType s t) ++ EncodeFixed64 vt).length - 16)
        = u := by
      rw [h16, hassoc, List.take_left]
    have hdrop8 : (u ++ EncodeFixed64 (PackSequenceAndType s t) ++ EncodeFixed64 vt).drop
        ((u ++ EncodeFixed64 (PackSequenceAndType s t) ++ EncodeFixed64 vt).length - 8)
        = EncodeFixed64 vt := drop_tag _ _ hEvt
    rw [hdrop16, htake16, hdrop8, DecodeFixed64_append_left _ _ hE,
      DecodeFixed64_EncodeFixed64 _ hlt, DecodeFixed64_EncodeFixed64 _ hvt,
      harith.1, harith.2]
    simp [kTypeValue, ht]

/-- Witness for C2 at `u = "abc"`, `s = 5`, `t = Value(1)`, `vt = 42`. -/
theorem claim_C2_roundtrip_witness :
    ParseInternalKey (AppendInternalKey [] ⟨[97, 98, 99], 5, 1⟩) ⟨[], 0, 0⟩ =
      (true, ⟨[97, 98, 99], 5, 1⟩) ∧
    ParseMVInternalKey (AppendMVInternalKey [] ⟨[97, 98, 99], 5, 1, 42⟩) ⟨[], 0, 0, 0⟩ =
      (true, ⟨[97, 98, 99], 5, 1, 42⟩) :=
  claim_C2_roundtrip [97, 98, 99] 5 1 42 ⟨[], 0, 0⟩ ⟨[], 0, 0, 0⟩
    (by rw [kMaxSequenceNumber_eq]; norm_num) (by norm_num) (by norm_num)

/-- Claim C3: `ParseInternalKey` succeeds iff the input is at least 8
bytes long and the type byte of the trailing tag is at most
`kTypeValue = 1`; `ParseMVInternalKey` succeeds iff the input is at
least 16 bytes long and the type byte of its tag (16 bytes from the
end) is at most `kTypeValue`.  In particular a tag carrying type 2 and
any too-short input are rejected. -/
theorem claim_C3_success_iff (b : Slice) (r : ParsedInternalKey)
    (rm : ParsedMVInternalKey) :
    ((ParseInternalKey b r).1 = true ↔
      8 ≤ b.length ∧ DecodeFixed64 (b.drop (b.length - 8)) &&& 0xff ≤ kTypeValue) ∧
    ((ParseMVInternalKey b rm).1 = true ↔
      16 ≤ b.length ∧ DecodeFixed64 (b.drop (b.length - 16)) &&& 0xff ≤ kTypeValue) := by
  constructor
  · rcases Nat.lt_or_ge b.length 8 with h | h
    · rw [ParseInternalKey_short b r h]
      simp only [Bool.false_eq_true, false_iff]
      exact fun hc => absurd hc.1 (by omega)
    · rw [ParseInternalKey_of_le b r h]
      simp [h]
  · rcases Nat.lt_or_ge b.length 16 with h | h
    · rw [ParseMVInternalKey_short b rm h]
      simp only [Bool.false_eq_true, false_iff]
      exact fun hc => absurd hc.1 (by omega)
    · rw [ParseMVInternalKey_of_le b rm h]
      simp [h]

/-- Claim C9: on input shorter than the fixed suffix both parse
functions return failure with `*result` untouched, while on input long
enough to run the tag-decoding step every field of `*result` is
overwritten with the decoded values, independently of the previous
contents of `*result`. -/
theorem claim_C9_result_state (b : Slice) (r r2 : ParsedInternalKey)
    (rm rm2 : ParsedMVInternalKey) :
    (b.length < 8 → ParseInternalKey b r = (false, r)) ∧
    (8 ≤ b.length → (ParseInternalKey b r).2 =
      { user_key := b.take (b.length - 8),
        sequence := DecodeFixed64 (b.drop (b.length - 8)) >>> 8,
        type := DecodeFixed64 (b.drop (b.length - 8)) &&& 0xff }) ∧
    (8 ≤ b.length → (ParseInternalKey b r).2 = (ParseInternalKey b r2).2) ∧
    (b.length < 16 → ParseMVInternalKey b rm = (false, rm)) ∧
    (16 ≤ b.length → (ParseMVInternalKey b rm).2 =
      { user_key := b.take (b.length - 16),
        sequence := DecodeFixed64 (b.drop (b.length - 16)) >>> 8,
        type := DecodeFixed64 (b.drop (b.length - 16)) &&& 0xff,
        valid_time := DecodeFixed64 (b.drop (b.length - 8)) }) ∧
    (16 ≤ b.length → (ParseMVInternalKey b rm).2 = (ParseMVInternalKey b rm2).2) :=
  ⟨fun h => ParseInternalKey_short b r h,
   fun h => by rw [ParseInternalKey_of_le b r h],
   fun h => by rw [ParseInternalKey_of_le b r h, ParseInternalKey_of_le b r2 h],
   fun h => ParseMVInternalKey_short b rm h,
   fun h => by rw [ParseMVInternalKey_of_le b rm h],
   fun h => by rw [ParseMVInternalKey_of_le b rm h, ParseMVInternalKey_of_le b rm2 h]⟩

/-- The all-zero 16-byte string, used as a concrete parse input. -/
def zeros16 : Slice := List.replicate 16 0

/-- Witness for C9 at concrete inputs: a 1-byte input leaves the result
untouched, a 16-byte input overwrites it independently of its previous
value. -/
theorem claim_C9_result_state_witness :
    ParseInternalKey [5] ⟨[9], 7, 3⟩ = (false, ⟨[9], 7, 3⟩) ∧
    (ParseInternalKey zeros16 ⟨[9], 7, 3⟩).2 =
      { user_key := zeros16.take (zeros16.length - 8),
        sequence := DecodeFixed64 (zeros16.drop (zeros16.length - 8)) >>> 8,
        type := DecodeFixed64 (zeros16.drop (zeros16.length - 8)) &&& 0xff } ∧
    (ParseInternalKey zeros16 ⟨[9], 7, 3⟩).2 = (ParseInternalKey zeros16 ⟨[], 0, 0⟩).2 ∧
    ParseMVInternalKey [5] ⟨[9], 7, 3, 4⟩ = (false, ⟨[9], 7, 3, 4⟩) ∧
    (ParseMVInternalKey zeros16 ⟨[9], 7, 3, 4⟩).2 =
      { user_key := zeros16.take (zeros16.length - 16),
        sequence := DecodeFixed64 (zeros16.drop (zeros16.length - 16)) >>> 8,
        type := DecodeFixed64 (zeros16.drop (zeros16.length - 16)) &&& 0xff,
        valid_time := DecodeFixed64 (zeros16.drop (zeros16.length - 8)) } ∧
    (ParseMVInternalKey zeros16 ⟨[9], 7, 3, 4⟩).2 =
      (ParseMVInternalKey zeros16 ⟨[], 0, 0, 0⟩).2 :=
  ⟨(claim_C9_result_state [5] ⟨[9], 7, 3⟩ ⟨[], 0, 0⟩ ⟨[9], 7, 3, 4⟩ ⟨[], 0, 0, 0⟩).1
      (by decide),
   (claim_C9_result_state zeros16 ⟨[9], 7, 3⟩ ⟨[], 0, 0⟩ ⟨[9], 7, 3, 4⟩
      ⟨[], 0, 0, 0⟩).2.1 (by decide),
   (claim_C9_result_state zeros16 ⟨[9], 7, 3⟩ ⟨[], 0, 0⟩ ⟨[9], 7, 3, 4⟩
      ⟨[], 0, 0, 0⟩).2.2.1 (by decide),
   (claim_C9_result_state [5] ⟨[], 0, 0⟩ ⟨[], 0, 0⟩ ⟨[9], 7, 3, 4⟩
      ⟨[], 0, 0, 0⟩).2.2.2.1 (by decide),
   (claim_C9_result_state zeros16 ⟨[], 0, 0⟩ ⟨[], 0, 0⟩ ⟨[9], 7, 3, 4⟩
      ⟨[], 0, 0, 0⟩).2.2.2.2.1 (by decide),
   (claim_C9_result_state zeros16 ⟨[], 0, 0⟩ ⟨[], 0, 0⟩ ⟨[9], 7, 3, 4⟩
      ⟨[], 0, 0, 0⟩).2.2.2.2.2 (by decide)⟩

/-- Claim C10: whenever the tag-decoding step runs, the stored sequence
number is the 64-bit tag shifted right by 8 bits, hence at most
`kMaxSequenceNumber = 2^56 - 1`, for arbitrary input bytes. -/
theorem claim_C10_sequence_bound (b : Slice) (r : ParsedInternalKey)
    (rm : ParsedMVInternalKey) :
    (8 ≤ b.length → (ParseInternalKey b r).2.sequence ≤ kMaxSequenceNumber) ∧
    (16 ≤ b.length → (ParseMVInternalKey b rm).2.sequence ≤ kMaxSequenceNumber) := by
  have key : ∀ bs : Slice, DecodeFixed64 bs >>> 8 ≤ kMaxSequenceNumber := by
    intro bs
    have h := DecodeFixed64_lt bs
    rw [Nat.shiftRight_eq_div_pow, kMaxSequenceNumber_eq]
    have h1 : (2 : Nat) ^ 8 = 256 := by norm_num
    have h2 : (2 : Nat) ^ 64 = 2 ^ 56 * 256 := by norm_num
    rw [h1]
    omega
  constructor
  · intro h
    rw [ParseInternalKey_of_le b r h]
    exact key _
  · intro h
    rw [ParseMVInternalKey_of_le b rm h]
    exact key _

/-- Witness for C10 at the all-zero 16-byte input. -/
theorem claim_C10_sequence_bound_witness :
    (ParseInternalKey zeros16 ⟨[], 0, 0⟩).2.sequence ≤ kMaxSequenceNumber ∧
    (ParseMVInternalKey zeros16 ⟨[], 0, 0, 0⟩).2.sequence ≤ kMaxSequenceNumber :=
  ⟨(claim_C10_sequence_bound zeros16 ⟨[], 0, 0⟩ ⟨[], 0, 0, 0⟩).1 (by decide),
   (claim_C10_sequence_bound zeros16 ⟨[], 0, 0⟩ ⟨[], 0, 0, 0⟩).2 (by decide)⟩

/-- On two encoded keys with an 8-byte suffix each, the comparator
reduces to the user comparison followed by the descending tag
comparison. -/
theorem Compare_append_tags (U : Slice → Slice → Int) (ua ub : Slice)
    (ta tb : Nat) (hta : ta < 2 ^ 64) (htb : tb < 2 ^ 64) (hU : U ua ub = 0) :
    InternalKeyComparator.Compare U (ua ++ EncodeFixed64 ta) (ub ++ EncodeFixed64 tb) =
      if tb < ta then -1 else if ta < tb then 1 else 0 := by
  simp only [InternalKeyComparator.Compare]
  rw [ExtractUserKey_append _ _ (EncodeFixed64_length ta),
    ExtractUserKey_append _ _ (EncodeFixed64_length tb), hU,
    drop_tag _ _ (EncodeFixed64_length ta), drop_tag _ _ (EncodeFixed64_length tb),
    DecodeFixed64_EncodeFixed64 _ hta, DecodeFixed64_EncodeFixed64 _ htb,
    if_pos rfl]

/-- Claim C1: `InternalKeyComparator::Compare` returns the user
comparator's nonzero result on the user-key portions unchanged; on equal
user keys the key with the numerically larger 8-byte tag sorts first
(compares less); in particular for equal user keys and sequences
`s1 > s2` the key with sequence `s1` compares strictly below the key
with sequence `s2`, for all types `t1, t2`. -/
theorem claim_C1_compare_order (U : Slice → Slice → Int) (a b u ua ub : Slice)
    (ta tb s1 s2 t1 t2 : Nat)
    (hta : ta < 2 ^ 64) (htb : tb < 2 ^ 64) (hrefl : U u u = 0)
    (hs1 : s1 ≤ kMaxSequenceNumber) (hs2 : s2 ≤ kMaxSequenceNumber)
    (ht1 : t1 ≤ 1) (ht2 : t2 ≤ 1) (hgt : s2 < s1) :
    (U (ExtractUserKey a) (ExtractUserKey b) ≠ 0 →
      InternalKeyComparator.Compare U a b = U (ExtractUserKey a) (ExtractUserKey b)) ∧
    (U ua ub = 0 → tb < ta →
      InternalKeyComparator.Compare U (ua ++ EncodeFixed64 ta)
        (ub ++ EncodeFixed64 tb) = -1) ∧
    (U ua ub = 0 → ta < tb →
      InternalKeyComparator.Compare U (ua ++ EncodeFixed64 ta)
        (ub ++ EncodeFixed64 tb) = 1) ∧
    InternalKeyComparator.Compare U (AppendInternalKey [] ⟨u, s1, t1⟩)
      (AppendInternalKey [] ⟨u, s2, t2⟩) < 0 := by
  refine ⟨?_, ?_, ?_, ?_⟩
  · intro h
    simp only [InternalKeyComparator.Compare]
    rw [if_neg h]
  · intro hU hlt
    rw [Compare_append_tags U ua ub ta tb hta htb hU, if_pos hlt]
  · intro hU hlt
    rw [Compare_append_tags U ua ub ta tb hta htb hU,
      if_neg (by omega), if_pos hlt]
  · have hp1 : PackSequenceAndType s1 t1 = 256 * s1 + t1 :=
      PackSequenceAndType_eq s1 t1 (by omega)
    have hp2 : PackSequenceAndType s2 t2 = 256 * s2 + t2 :=
      PackSequenceAndType_eq s2 t2 (by omega)
    rw [AppendInternalKey_nil, AppendInternalKey_nil,
      Compare_append_tags U u u _ _ (PackSequenceAndType_lt s1 t1 hs1 ht1)
        (PackSequenceAndType_lt s2 t2 hs2 ht2) hrefl,
      if_pos (by omega)]
    norm_num

/-- A concrete injected user comparator: compares byte-string lengths. -/
def lenCmp : Slice → Slice → Int :=
  fun x y => (x.length : Int) - (y.length : Int)

/-- Witness for C1 with the length comparator at concrete keys. -/
theorem claim_C1_compare_order_witness :
    (lenCmp (ExtractUserKey (List.replicate 9 0)) (ExtractUserKey []) ≠ 0 →
      InternalKeyComparator.Compare lenCmp (List.replicate 9 0) [] =
        lenCmp (ExtractUserKey (List.replicate 9 0)) (ExtractUserKey [])) ∧
    (lenCmp [97] [98] = 0 → 200 < 300 →
      InternalKeyComparator.Compare lenCmp ([97] ++ EncodeFixed64 300)
        ([98] ++ EncodeFixed64 200) = -1) ∧
    (lenCmp [97] [98] = 0 → 300 < 200 →
      InternalKeyComparator.Compare lenCmp ([97] ++ EncodeFixed64 300)
        ([98] ++ EncodeFixed64 200) = 1) ∧
    InternalKeyComparator.Compare lenCmp (AppendInternalKey [] ⟨[99], 5, 1⟩)
      (AppendInternalKey [] ⟨[99], 3, 0⟩) < 0 :=
  claim_C1_compare_order lenCmp (List.replicate 9 0) [] [99] [97] [98]
    300 200 5 3 1 0 (by decide) (by decide) (by decide)
    (by rw [kMaxSequenceNumber_eq]; norm_num) (by rw [kMaxSequenceNumber_eq]; norm_num)
    (by decide) (by decide) (by decide)

/- Length of freshly encoded owning-key buffers. -/

theorem AppendInternalKey_nil_len (p : ParsedInternalKey) :
    (AppendInternalKey [] p).length = p.user_key.length + 8 := by
  simp [AppendInternalKey, EncodeFixed64_length]

theorem AppendMVInternalKey_nil_len (p : ParsedMVInternalKey) :
    (AppendMVInternalKey [] p).length = p.user_key.length + 16 := by
  simp [AppendMVInternalKey, EncodeFixed64_length]

/-- Any guarded sequence of `InternalKey` operations preserves the
buffer invariant. -/
theorem IKRun_wellFormed (ops : List IKOp) :
    ∀ init : Slice, IKWellFormed init → ops.all IKOpOK = true →
      IKWellFormed (IKRun init ops) := by
  induction ops with
  | nil => intro init h _; exact h
  | cons op ops ih =>
    intro init h hops
    simp only [List.all_cons, Bool.and_eq_true] at hops
    have hstep : IKWellFormed (IKApply init op) := by
      cases op with
      | decodeFrom s =>
        have hs : 8 ≤ s.length := by
          have := hops.1
          simp only [IKOpOK, decide_eq_true_eq] at this
          exact this
        exact Or.inr hs
      | decodeFromMV s =>
        have hs : 16 ≤ s.length := by
          have := hops.1
          simp only [IKOpOK, decide_eq_true_eq] at this
          exact this
        refine Or.inr ?_
        simp only [IKApply, InternalKey.DecodeFromMV, List.length_take]
        omega
      | setFrom p =>
        refine Or.inr ?_
        simp only [IKApply, InternalKey.SetFrom, AppendInternalKey_nil_len]
        omega
      | clear => exact Or.inl rfl
    exact ih (IKApply init op) hstep hops.2

/-- Any guarded sequence of `MVInternalKey` operations preserves the
buffer invariant. -/
theorem MVIKRun_wellFormed (ops : List MVIKOp) :
    ∀ init : Slice, MVIKWellFormed init → ops.all MVIKOpOK = true →
      MVIKWellFormed (MVIKRun init ops) := by
  induction ops with
  | nil => intro init h _; exact h
  | cons op ops ih =>
    intro init h hops
    simp only [List.all_cons, Bool.and_eq_true] at hops
    have hstep : MVIKWellFormed (MVIKApply init op) := by
      cases op with
      | decodeFrom s =>
        have hs : 16 ≤ s.length := by
          have := hops.1
          simp only [MVIKOpOK, decide_eq_true_eq] at this
          exact this
        exact Or.inr hs
      | setFrom p =>
        refine Or.inr ?_
        simp only [MVIKApply, MVInternalKey.SetFrom, AppendMVInternalKey_nil_len]
        omega
      | clear => exact Or.inl rfl
    exact ih (MVIKApply init op) hstep hops.2

/-- Counterexample to C4 as stated: `DecodeFrom` performs no length
validation, so feeding a 1-byte input to an `InternalKey` leaves a
buffer that is neither empty nor at least 8 bytes long. -/
theorem claim_C4_counterexample :
    IKRun InternalKey.mkEmpty [IKOp.decodeFrom [97]] = [97] ∧
    ¬ IKWellFormed (IKRun InternalKey.mkEmpty [IKOp.decodeFrom [97]]) := by
  decide

/-- Claim C4 (amended): construction (empty or from a parsed key) yields
a well-formed buffer, and any sequence of `DecodeFrom`, `DecodeFromMV`,
`SetFrom` and `Clear` operations preserves the invariant *provided*
every `DecodeFrom` input is at least 8 bytes (16 for the multi-version
type) and every `DecodeFromMV` input is at least 16 bytes; without that
proviso `DecodeFrom` can store arbitrary nonempty short buffers. -/
theorem claim_C4_invariant (init1 init2 u : Slice) (s t vt : Nat)
    (ops1 : List IKOp) (ops2 : List MVIKOp)
    (h1 : IKWellFormed init1) (h2 : MVIKWellFormed init2)
    (hops1 : ops1.all IKOpOK = true) (hops2 : ops2.all MVIKOpOK = true) :
    IKWellFormed InternalKey.mkEmpty ∧
    IKWellFormed (InternalKey.fromParsed u s t) ∧
    MVIKWellFormed MVInternalKey.mkEmpty ∧
    MVIKWellFormed (MVInternalKey.fromParsed u s t vt) ∧
    IKWellFormed (IKRun init1 ops1) ∧
    MVIKWellFormed (MVIKRun init2 ops2) := by
  refine ⟨Or.inl rfl, Or.inr ?_, Or.inl rfl, Or.inr ?_, ?_, ?_⟩
  · rw [InternalKey.fromParsed, AppendInternalKey_nil_len]
    omega
  · rw [MVInternalKey.fromParsed, AppendMVInternalKey_nil_len]
    omega
  · exact IKRun_wellFormed ops1 init1 h1 hops1
  · exact MVIKRun_wellFormed ops2 init2 h2 hops2

/-- Witness for the amended C4 at concrete operation sequences. -/
theorem claim_C4_invariant_witness :
    IKWellFormed InternalKey.mkEmpty ∧
    IKWellFormed (InternalKey.fromParsed [97] 5 1) ∧
    MVIKWellFormed MVInternalKey.mkEmpty ∧
    MVIKWellFormed (MVInternalKey.fromParsed [97] 5 1 42) ∧
    IKWellFormed (IKRun []
      [IKOp.setFrom ⟨[97], 5, 1⟩, IKOp.decodeFrom zeros16,
       IKOp.decodeFromMV zeros16, IKOp.clear]) ∧
    MVIKWellFormed (MVIKRun []
      [MVIKOp.setFrom ⟨[97], 5, 1, 42⟩, MVIKOp.decodeFrom zeros16, MVIKOp.clear]) :=
  claim_C4_invariant [] [] [97] 5 1 42
    [IKOp.setFrom ⟨[97], 5, 1⟩, IKOp.decodeFrom zeros16,
     IKOp.decodeFromMV zeros16, IKOp.clear]
    [MVIKOp.setFrom ⟨[97], 5, 1, 42⟩, MVIKOp.decodeFrom zeros16, MVIKOp.clear]
    (by decide) (by decide) (by decide) (by decide)

/-- Claim C5: the legacy owning key's `DecodeFromMV` copies only the
leading `len - 8` bytes of its input (dropping the trailing 8-byte valid
time) and fails exactly when the resulting buffer is empty, while the
plain `DecodeFrom` of both owning types copies all input bytes and fails
exactly when the input is empty. -/
theorem claim_C5_decode_copies (u v s : Slice) (hv : v.length = 8) :
    (InternalKey.DecodeFromMV (u ++ v)).2 = u ∧
    ((InternalKey.DecodeFromMV (u ++ v)).1 = true ↔ u ≠ []) ∧
    (InternalKey.DecodeFrom s).2 = s ∧
    ((InternalKey.DecodeFrom s).1 = true ↔ s ≠ []) ∧
    (MVInternalKey.DecodeFrom s).2 = s ∧
    ((MVInternalKey.DecodeFrom s).1 = true ↔ s ≠ []) := by
  have hrep : (u ++ v).take ((u ++ v).length - 8) = u := by
    rw [← hv]
    exact take_append_length u v
  refine ⟨?_, ?_, rfl, ?_, rfl, ?_⟩
  · simp only [InternalKey.DecodeFromMV]
    exact hrep
  · simp only [InternalKey.DecodeFromMV, hrep]
    simp [List.isEmpty_iff]
  · simp [InternalKey.DecodeFrom, List.isEmpty_iff]
  · simp [MVInternalKey.DecodeFrom, List.isEmpty_iff]

/-- Witness for C5 at a 1-byte user key with an 8-byte suffix. -/
theorem claim_C5_decode_copies_witness :
    (InternalKey.DecodeFromMV ([97] ++ EncodeFixed64 42)).2 = [97] ∧
    ((InternalKey.DecodeFromMV ([97] ++ EncodeFixed64 42)).1 = true ↔ [97] ≠ ([] : Slice)) ∧
    (InternalKey.DecodeFrom [98]).2 = [98] ∧
    ((InternalKey.DecodeFrom [98]).1 = true ↔ [98] ≠ ([] : Slice)) ∧
    (MVInternalKey.DecodeFrom [98]).2 = [98] ∧
    ((MVInternalKey.DecodeFrom [98]).1 = true ↔ [98] ≠ ([] : Slice)) :=
  claim_C5_decode_copies [97] (EncodeFixed64 42) [98] (EncodeFixed64_length 42)

/-- The multi-version key of spec example 2: user key `"k"`, sequence 10,
type `Deletion(0)`, valid time 42. -/
def mvExampleKey : Slice := AppendMVInternalKey [] ⟨[107], 10, kTypeDeletion, 42⟩

/-- Counterexample to C6 as stated: the encoding is as claimed, but
`ExtractUserKey` (which strips only 8 trailing bytes) applied to the
17-byte multi-version buffer does not return the 1-byte user key. -/
theorem claim_C6_counterexample :
    mvExampleKey = [107] ++ EncodeFixed64 2560 ++ EncodeFixed64 42 ∧
    ExtractUserKey mvExampleKey ≠ [107] := by
  decide

/-- Claim C6 (amended): the multi-version parsed key
`{"k", 10, Deletion(0), 42}` encodes to `"k" ‖ fixed64(2560) ‖
fixed64(42)`, and `MVExtractUserKey` — the multi-version user-key
extractor, which strips the full 16-byte suffix — returns exactly `"k"`;
plain `ExtractUserKey` instead returns `"k"` followed by the 8-byte
tag. -/
theorem claim_C6_example2 :
    mvExampleKey = [107] ++ EncodeFixed64 2560 ++ EncodeFixed64 42 ∧
    MVExtractUserKey mvExampleKey = [107] ∧
    ExtractUserKey mvExampleKey = [107] ++ EncodeFixed64 2560 := by
  decide

/-- Claim C7: a `LookupKey` built from user key `u` and sequence `s` has
`memtable_key = varint32(len(internal_key)) ‖ internal_key`,
`internal_key = u ‖ tag` exactly, and `user_key = u` exactly (the
internal key view minus the trailing 8 bytes); an `MVLookupKey` in
addition has `user_key` equal to its internal key view minus the
trailing 16 bytes and `valid_time` decoded from the 8 bytes immediately
preceding the end of the buffer. -/
theorem claim_C7_lookup_views (u : Slice) (s vt : Nat) (hvt : vt < 2 ^ 64) :
    (LookupKey.build u s).memtable_key =
      EncodeVarint32 ((LookupKey.build u s).internal_key.length) ++
        (LookupKey.build u s).internal_key ∧
    (LookupKey.build u s).internal_key =
      u ++ EncodeFixed64 (PackSequenceAndType s kValueTypeForSeek) ∧
    (LookupKey.build u s).user_key = u ∧
    (MVLookupKey.build u s vt).internal_key =
      u ++ EncodeFixed64 (PackSequenceAndType s kValueTypeForSeek)
        ++ EncodeFixed64 vt ∧
    (MVLookupKey.build u s vt).user_key = u ∧
    (MVLookupKey.build u s vt).user_key =
      (MVLookupKey.build u s vt).internal_key.take
        ((MVLookupKey.build u s vt).internal_key.length - 16) ∧
    (MVLookupKey.build u s vt).valid_time = vt := by
  have hE : (EncodeFixed64 (PackSequenceAndType s kValueTypeForSeek)).length = 8 :=
    EncodeFixed64_length _
  have hEvt : (EncodeFixed64 vt).length = 8 := EncodeFixed64_length _
  have hik : (LookupKey.build u s).internal_key =
      u ++ EncodeFixed64 (PackSequenceAndType s kValueTypeForSeek) := by
    simp only [LookupKey.build, LookupKey.internal_key]
    exact List.drop_left _ _
  have hiklen : (LookupKey.build u s).internal_key.length = u.length + 8 := by
    rw [hik]
    simp [hE]
  have hmvik : (MVLookupKey.build u s vt).internal_key =
      u ++ EncodeFixed64 (PackSequenceAndType s kValueTypeForSeek)
        ++ EncodeFixed64 vt := by
    simp only [MVLookupKey.build, MVLookupKey.internal_key]
    exact List.drop_left _ _
  have hmviklen : (MVLookupKey.build u s vt).internal_key.length = u.length + 16 := by
    rw [hmvik]
    simp [hE, hEvt]
  refine ⟨?_, hik, ?_, hmvik, ?_, ?_, ?_⟩
  · rw [hiklen, hik]
    rfl
  · simp only [LookupKey.user_key, LookupKey.build]
    rw [show (EncodeVarint32 (u.length + 8) ++
        (u ++ EncodeFixed64 (PackSequenceAndType s kValueTypeForSeek))).length -
        (EncodeVarint32 (u.length + 8)).length - 8 = u.length by simp [hE],
      List.drop_left]
    exact List.take_left _ _
  · simp only [MVLookupKey.user_key, MVLookupKey.build]
    rw [show (EncodeVarint32 (u.length + 16) ++
        (u ++ EncodeFixed64 (PackSequenceAndType s kValueTypeForSeek)
          ++ EncodeFixed64 vt)).length -
        (EncodeVarint32 (u.length + 16)).length - 16 = u.length by
          simp [hE, hEvt],
      List.drop_left, List.append_assoc, List.take_left]
  · have hl : (MVLookupKey.build u s vt).user_key = u := by
      simp only [MVLookupKey.user_key, MVLookupKey.build]
      rw [show (EncodeVarint32 (u.length + 16) ++
          (u ++ EncodeFixed64 (PackSequenceAndType s kValueTypeForSeek)
            ++ EncodeFixed64 vt)).length -
          (EncodeVarint32 (u.length + 16)).length - 16 = u.length by
            simp [hE, hEvt],
        List.drop_left, List.append_assoc, List.take_left]
    rw [hl, hmvik, show (u ++ EncodeFixed64 (PackSequenceAndType s kValueTypeForSeek)
        ++ EncodeFixed64 vt).length - 16 = u.length by simp [hE, hEvt],
      List.append_assoc, List.take_left]
  · simp only [MVLookupKey.valid_time, MVLookupKey.build]
    rw [show EncodeVarint32 (u.length + 16) ++
        (u ++ EncodeFixed64 (PackSequenceAndType s kValueTypeForSeek)
          ++ EncodeFixed64 vt) =
        (EncodeVarint32 (u.length + 16) ++
          (u ++ EncodeFixed64 (PackSequenceAndType s kValueTypeForSeek)))
          ++ EncodeFixed64 vt by simp [List.append_assoc],
      drop_tag _ _ hEvt, DecodeFixed64_EncodeFixed64 _ hvt]

/-- Witness for C7 at `u = "xyz"`, `s = 3`, `vt = 7`. -/
theorem claim_C7_lookup_views_witness :
    (LookupKey.build [120, 121, 122] 3).memtable_key =
      EncodeVarint32 ((LookupKey.build [120, 121, 122] 3).internal_key.length) ++
        (LookupKey.build [120, 121, 122] 3).internal_key ∧
    (LookupKey.build [120, 121, 122] 3).internal_key =
      [120, 121, 122] ++ EncodeFixed64 (PackSequenceAndType 3 kValueTypeForSeek) ∧
    (LookupKey.build [120, 121, 122] 3).user_key = [120, 121, 122] ∧
    (MVLookupKey.build [120, 121, 122] 3 7).internal_key =
      [120, 121, 122] ++ EncodeFixed64 (PackSequenceAndType 3 kValueTypeForSeek)
        ++ EncodeFixed64 7 ∧
    (MVLookupKey.build [120, 121, 122] 3 7).user_key = [120, 121, 122] ∧
    (MVLookupKey.build [120, 121, 122] 3 7).user_key =
      (MVLookupKey.build [120, 121, 122] 3 7).internal_key.take
        ((MVLookupKey.build [120, 121, 122] 3 7).internal_key.length - 16) ∧
    (MVLookupKey.build [120, 121, 122] 3 7).valid_time = 7 :=
  claim_C7_lookup_views [120, 121, 122] 3 7 (by decide)

/-- Stripping the 8-byte tag from every `user key ‖ tag` pair recovers
the user keys. -/
theorem map_extract_zipWith (us : List Slice) :
    ∀ tags : List Slice, tags.length = us.length →
      (∀ t ∈ tags, t.length = 8) →
      (List.zipWith (fun a b => a ++ b) us tags).map ExtractUserKey = us := by
  induction us with
  | nil => intro tags _ _; simp
  | cons a us ih =>
    intro tags hl ht
    cases tags with
    | nil => simp at hl
    | cons t tags =>
      simp only [List.zipWith_cons_cons, List.map_cons]
      rw [ExtractUserKey_append a t (ht t (by simp)),
        ih tags (by simpa using hl) (fun x hx => ht x (by simp [hx]))]

/-- A concrete wrapped user filter that inspects the final 8 bytes of
the probed key, used to exhibit the failure of C8 on multi-version
keys. -/
def tagProbe : Slice → Slice → Bool :=
  fun key _ => decide (DecodeFixed64 (key.drop (key.length - 8)) = 256)

/-- Multi-version key `{user key "a", sequence 1, Deletion, valid time 5}`. -/
def mvSeqKeyA : Slice := AppendMVInternalKey [] ⟨[97], 1, kTypeDeletion, 5⟩

/-- Multi-version key `{user key "a", sequence 2, Deletion, valid time 5}`. -/
def mvSeqKeyB : Slice := AppendMVInternalKey [] ⟨[97], 2, kTypeDeletion, 5⟩

/-- Counterexample to C8 as stated: two encoded multi-version internal
keys with the same user key `"a"` (and same type and valid time) that
differ only in sequence number get different `KeyMayMatch` answers,
because `InternalFilterPolicy` strips only 8 trailing bytes and the user
filter still sees the tag of a multi-version key. -/
theorem claim_C8_counterexample :
    MVExtractUserKey mvSeqKeyA = MVExtractUserKey mvSeqKeyB ∧
    mvSeqKeyA ≠ mvSeqKeyB ∧
    InternalFilterPolicy.KeyMayMatch tagProbe mvSeqKeyA [] ≠
      InternalFilterPolicy.KeyMayMatch tagProbe mvSeqKeyB [] := by
  decide

/-- Claim C8 (amended): for plain internal keys — user key plus an
8-byte tag — `KeyMayMatch` is identical for any two keys sharing the
same user key, whatever their sequence and type; the wrapped user filter
never observes the tag.  `CreateFilter` likewise depends only on the
user keys of such a key set.  For multi-version keys the adapter strips
exactly the trailing 8-byte valid time, so two multi-version keys
differing only in valid time are treated identically (but, per the
counterexample, ones differing in sequence are not). -/
theorem claim_C8_filter_userkey_only (userKMM : Slice → Slice → Bool)
    (userCF : List Slice → Slice) (u t1 t2 f k : Slice) (vt1 vt2 : Nat)
    (us tags1 tags2 : List Slice)
    (h1 : t1.length = 8) (h2 : t2.length = 8)
    (hl1 : tags1.length = us.length) (hl2 : tags2.length = us.length)
    (ht1 : ∀ t ∈ tags1, t.length = 8) (ht2 : ∀ t ∈ tags2, t.length = 8) :
    InternalFilterPolicy.KeyMayMatch userKMM (u ++ t1) f =
      InternalFilterPolicy.KeyMayMatch userKMM (u ++ t2) f ∧
    InternalFilterPolicy.KeyMayMatch userKMM (k ++ EncodeFixed64 vt1) f =
      InternalFilterPolicy.KeyMayMatch userKMM (k ++ EncodeFixed64 vt2) f ∧
    InternalFilterPolicy.CreateFilter userCF
        (List.zipWith (fun a b => a ++ b) us tags1) =
      InternalFilterPolicy.CreateFilter userCF
        (List.zipWith (fun a b => a ++ b) us tags2) := by
  refine ⟨?_, ?_, ?_⟩
  · rw [InternalFilterPolicy.KeyMayMatch, InternalFilterPolicy.KeyMayMatch,
      ExtractUserKey_append u t1 h1, ExtractUserKey_append u t2 h2]
  · rw [InternalFilterPolicy.KeyMayMatch, InternalFilterPolicy.KeyMayMatch,
      ExtractUserKey_append k _ (EncodeFixed64_length vt1),
      ExtractUserKey_append k _ (EncodeFixed64_length vt2)]
  · rw [InternalFilterPolicy.CreateFilter, InternalFilterPolicy.CreateFilter,
      map_extract_zipWith us tags1 hl1 ht1, map_extract_zipWith us tags2 hl2 ht2]

/-- Witness for the amended C8 at concrete keys, tags and a concrete
wrapped filter. -/
theorem claim_C8_filter_userkey_only_witness :
    InternalFilterPolicy.KeyMayMatch tagProbe ([97] ++ EncodeFixed64 256) [] =
      InternalFilterPolicy.KeyMayMatch tagProbe ([97] ++ EncodeFixed64 512) [] ∧
    InternalFilterPolicy.KeyMayMatch tagProbe ([97] ++ EncodeFixed64 5) [] =
      InternalFilterPolicy.KeyMayMatch tagProbe ([97] ++ EncodeFixed64 6) [] ∧
    InternalFilterPolicy.CreateFilter (fun keys => keys.foldl (fun a b => a ++ b) [])
        (List.zipWith (fun a b => a ++ b) [[97]] [EncodeFixed64 256]) =
      InternalFilterPolicy.CreateFilter (fun keys => keys.foldl (fun a b => a ++ b) [])
        (List.zipWith (fun a b => a ++ b) [[97]] [EncodeFixed64 512]) :=
  claim_C8_filter_userkey_only tagProbe (fun keys => keys.foldl (fun a b => a ++ b) [])
    [97] (EncodeFixed64 256) (EncodeFixed64 512) [] [97] 5 6
    [[97]] [EncodeFixed64 256] [EncodeFixed64 512]
    (EncodeFixed64_length 256) (EncodeFixed64_length 512)
    (by decide) (by decide) (by decide) (by decide)
